import Mathlib

/-!
Verification of the scribble job pipeline against its specification.

The development shallowly embeds the Python source of the repository:

- worker.py          : the JobManager poll-claim-execute state machine
- transcription_engine.py : the chronological transcript merge
- llm_engine.py      : provider calls, audit logging, cost accounting
- app.py             : the smart-extract archive restore helper

Pure helpers become Lean functions; database rows become explicit record
lists threaded through a step function; functions that can raise a Python
exception return values that mark the error path explicitly.
-/

namespace Scribble

/-! ## String helpers

Python string operations modelled over the character list of a string,
so that every use is executable and kernel-reducible. -/

/-- Python s.startswith(p), over the character lists. -/
def strStartsWith (s p : String) : Bool := p.data.isPrefixOf s.data

/-- Python s[n:] for a non-negative character index. -/
def strDropChars (s : String) (n : Nat) : String := ⟨s.data.drop n⟩

/-- Python s.endswith(p). -/
def strEndsWith (s p : String) : Bool := p.data.isSuffixOf s.data

/-- Scan for an occurrence of p as a contiguous run inside l. -/
def subScan (p : List Char) : List Char → Bool
  | [] => p.isEmpty
  | c :: cs => p.isPrefixOf (c :: cs) || subScan p cs

/-- Python membership test p in s (substring containment). -/
def strContains (s p : String) : Bool := subScan p.data s.data

/-! ## Transcript merge

From transcription_engine.py, run_transcription: each transcribed segment
is appended to master_transcript as a pair (segment.start, line); at the
end the pooled list is sorted with master_transcript.sort(key t => t[0])
and joined with newlines.  Python list.sort is a stable sort, and the
stable sort of a list by a key is uniquely determined by sortedness,
stability and being a permutation; we realise it as a stable insertion
sort, which is structurally recursive and therefore reduces on concrete
inputs.  Start times (Python floats) are modelled as rationals. -/

/-- One transcribed segment: start time in seconds paired with the
rendered transcript line. -/
abbrev Segment : Type := ℚ × String

/-- Insert a segment into an already sorted list, before every segment of
equal or later start time: the element being inserted always comes from
earlier in the original list, so this placement is the stable one. -/
def insertSeg (x : Segment) : List Segment → List Segment
  | [] => [x]
  | y :: ys => if x.1 ≤ y.1 then x :: y :: ys else y :: insertSeg x ys

/-- Stable sort of the pooled segments by start time, modelling
master_transcript.sort(key t => t[0]) in run_transcription. -/
def sortSegs : List Segment → List Segment
  | [] => []
  | x :: xs => insertSeg x (sortSegs xs)

/-- Python "\n".join. -/
def joinLines : List String → String
  | [] => ""
  | [s] => s
  | s :: rest => s ++ "\n" ++ joinLines rest

/-- The final merged master transcript text produced by run_transcription:
sort the pooled segments by start time, keep the rendered lines, join. -/
def mergedText (l : List Segment) : String :=
  joinLines ((sortSegs l).map Prod.snd)

lemma insertSeg_perm (x : Segment) (l : List Segment) :
    (insertSeg x l).Perm (x :: l) := by
  induction l with
  | nil => rfl
  | cons y ys ih =>
    by_cases h : x.1 ≤ y.1
    · simp [insertSeg, h]
    · simp only [insertSeg, h, if_false]
      exact (List.Perm.cons y ih).trans (List.Perm.swap x y ys)

lemma sortSegs_perm (l : List Segment) : (sortSegs l).Perm l := by
  induction l with
  | nil => rfl
  | cons x xs ih =>
    exact (insertSeg_perm x (sortSegs xs)).trans (List.Perm.cons x ih)

lemma mem_insertSeg {z x : Segment} {l : List Segment}
    (h : z ∈ insertSeg x l) : z = x ∨ z ∈ l := by
  have := (insertSeg_perm x l).mem_iff.mp h
  simpa using this

lemma insertSeg_pairwise {x : Segment} {l : List Segment}
    (h : l.Pairwise fun a b => a.1 ≤ b.1) :
    (insertSeg x l).Pairwise fun a b => a.1 ≤ b.1 := by
  induction l with
  | nil => simp [insertSeg]
  | cons y ys ih =>
    rcases List.pairwise_cons.mp h with ⟨hy, hys⟩
    by_cases hxy : x.1 ≤ y.1
    · have he : insertSeg x (y :: ys) = x :: y :: ys := by simp [insertSeg, hxy]
      rw [he]
      refine List.pairwise_cons.mpr ⟨?_, h⟩
      intro z hz
      rcases List.mem_cons.mp hz with rfl | hz
      · exact hxy
      · exact hxy.trans (hy z hz)
    · have he : insertSeg x (y :: ys) = y :: insertSeg x ys := by simp [insertSeg, hxy]
      rw [he]
      refine List.pairwise_cons.mpr ⟨?_, ih hys⟩
      intro z hz
      rcases mem_insertSeg hz with rfl | hz
      · exact (lt_of_not_le hxy).le
      · exact hy z hz

lemma sortSegs_sorted (l : List Segment) :
    (sortSegs l).Pairwise fun a b => a.1 ≤ b.1 := by
  induction l with
  | nil => simp [sortSegs]
  | cons x xs ih => exact insertSeg_pairwise ih

lemma filter_insertSeg (x : Segment) (l : List Segment) (t : ℚ) :
    (insertSeg x l).filter (fun s => decide (s.1 = t))
      = if x.1 = t then x :: l.filter (fun s => decide (s.1 = t))
        else l.filter (fun s => decide (s.1 = t)) := by
  induction l with
  | nil => by_cases h : x.1 = t <;> simp [insertSeg, h]
  | cons y ys ih =>
    by_cases hxy : x.1 ≤ y.1
    · have he : insertSeg x (y :: ys) = x :: y :: ys := by simp [insertSeg, hxy]
      rw [he]
      by_cases h : x.1 = t <;> simp [List.filter_cons, h]
    · have he : insertSeg x (y :: ys) = y :: insertSeg x ys := by
        simp [insertSeg, hxy]
      have hlt : y.1 < x.1 := lt_of_not_le hxy
      rw [he]
      by_cases h : x.1 = t
      · have hy : ¬ y.1 = t := by
          intro hyt
          rw [hyt, h] at hlt
          exact lt_irrefl t hlt
        simp [List.filter_cons, hy, ih, h]
      · by_cases hy : y.1 = t <;> simp [List.filter_cons, hy, ih, h]

lemma filter_sortSegs (l : List Segment) (t : ℚ) :
    (sortSegs l).filter (fun s => decide (s.1 = t))
      = l.filter (fun s => decide (s.1 = t)) := by
  induction l with
  | nil => rfl
  | cons x xs ih =>
    by_cases h : x.1 = t <;>
      simp [sortSegs, filter_insertSeg, h, ih]

/-- C2: for every pooled collection of segments, the transcript merge
returns exactly the pooled segments (a permutation), sorted ascending by
start time, and the segments of any fixed start time appear in the same
relative order as they were appended during speaker processing. -/
theorem merge_sorted_and_stable (l : List Segment) :
    (sortSegs l).Perm l
    ∧ ((sortSegs l).Pairwise fun a b => a.1 ≤ b.1)
    ∧ ∀ t : ℚ, (sortSegs l).filter (fun s => decide (s.1 = t))
        = l.filter (fun s => decide (s.1 = t)) :=
  ⟨sortSegs_perm l, sortSegs_sorted l, filter_sortSegs l⟩

/-- Two speakers producing one segment each at the same start time, with
the speakers iterated in the two possible orders. -/
def tieFirst : List Segment := [(0, "alice: hi"), (0, "bob: hi")]

/-- The same pooled segment data with the speaker iteration order
reversed. -/
def tieSecond : List Segment := [(0, "bob: hi"), (0, "alice: hi")]

/-- C3 counterexample: the merged master transcript text is not invariant
under permuting the speaker iteration order when two speakers share an
equal start time: the stable sort keeps ties in insertion order, so the
two iteration orders give different bytes. -/
theorem merge_text_differs_on_tied_starts :
    tieSecond.Perm tieFirst ∧ mergedText tieSecond ≠ mergedText tieFirst := by
  decide

/-- Strict comparison of segments by start time. -/
def startLT (a b : Segment) : Prop := a.1 < b.1

instance : IsAntisymm Segment startLT :=
  ⟨fun _ _ h1 h2 => (lt_asymm h1 h2).elim⟩

lemma sortSegs_sorted_strict {l : List Segment}
    (hnd : (l.map Prod.fst).Nodup) : (sortSegs l).Sorted startLT := by
  have hperm : ((sortSegs l).map Prod.fst).Perm (l.map Prod.fst) :=
    (sortSegs_perm l).map Prod.fst
  have hnd2 : ((sortSegs l).map Prod.fst).Nodup := hperm.nodup_iff.mpr hnd
  have hne : (sortSegs l).Pairwise fun a b => a.1 ≠ b.1 :=
    List.pairwise_map.mp hnd2
  exact ((sortSegs_sorted l).and hne).imp fun h => lt_of_le_of_ne h.1 h.2

/-- C3 (amended): the merge is invariant to the order speaker files are
iterated provided no two pooled segments share a start time: any two
permutations of the same segment data with pairwise distinct start times
produce the same sorted list and byte-identical merged text. -/
theorem merge_order_invariant_without_ties (l₁ l₂ : List Segment)
    (hp : l₁.Perm l₂) (hnd : (l₁.map Prod.fst).Nodup) :
    sortSegs l₁ = sortSegs l₂ ∧ mergedText l₁ = mergedText l₂ := by
  have hnd2 : (l₂.map Prod.fst).Nodup := ((hp.map Prod.fst).nodup_iff).mp hnd
  have hperm : (sortSegs l₁).Perm (sortSegs l₂) :=
    (sortSegs_perm l₁).trans (hp.trans (sortSegs_perm l₂).symm)
  have heq : sortSegs l₁ = sortSegs l₂ :=
    List.eq_of_perm_of_sorted hperm (sortSegs_sorted_strict hnd)
      (sortSegs_sorted_strict hnd2)
  exact ⟨heq, by rw [mergedText, heq, mergedText]⟩

/-- Witness for the amended C3 theorem at concrete distinct-start data. -/
theorem merge_order_invariant_without_ties_witness :
    sortSegs [((0 : ℚ), "alice: hi"), (1, "bob: yo")]
        = sortSegs [((1 : ℚ), "bob: yo"), (0, "alice: hi")]
    ∧ mergedText [((0 : ℚ), "alice: hi"), (1, "bob: yo")]
        = mergedText [((1 : ℚ), "bob: yo"), (0, "alice: hi")] :=
  merge_order_invariant_without_ties
    [((0 : ℚ), "alice: hi"), (1, "bob: yo")]
    [((1 : ℚ), "bob: yo"), (0, "alice: hi")]
    (by decide) (by decide)

/-! ## Archive smart extract

From app.py, session_action.ensure_files_exist: when restoring files for
a single target speaker, the archive member list is scanned for the first
entry whose name contains the target identifier and ends with ".flac";
that member alone is extracted and the loop breaks.  When no member
matches, extractall is called, extracting every member. -/

/-- Test from the restore loop: target in name and name.endswith(".flac"). -/
def memberMatches (target : String) (name : String) : Bool :=
  strContains name target && strEndsWith name ".flac"

/-- The set of archive members extracted when restoring for one target
speaker: the first matching member alone, or every member as fallback. -/
def smartExtract (names : List String) (target : String) : List String :=
  match names.find? (memberMatches target) with
  | some n => [n]
  | none => names

/-- C9: restoring for a single target speaker extracts only one matching
member when the archive holds an entry containing the target identifier
and ending in ".flac", and falls back to extracting the entire archive
when no member matches. -/
theorem smart_extract_single_or_full (names : List String) (target : String) :
    ((∃ n ∈ names, memberMatches target n = true) →
       ∃ n ∈ names, memberMatches target n = true
         ∧ smartExtract names target = [n])
    ∧ ((∀ n ∈ names, memberMatches target n = false) →
       smartExtract names target = names) := by
  constructor
  · intro hex
    cases hf : names.find? (memberMatches target) with
    | none =>
      rcases hex with ⟨n, hn, hmatch⟩
      have := List.find?_eq_none.mp hf n hn
      exact absurd hmatch this
    | some n =>
      refine ⟨n, List.mem_of_find?_eq_some hf, List.find?_some hf, ?_⟩
      simp [smartExtract, hf]
  · intro hall
    cases hf : names.find? (memberMatches target) with
    | none => simp [smartExtract, hf]
    | some n =>
      have h1 := List.find?_some hf
      have h2 := hall n (List.mem_of_find?_eq_some hf)
      rw [h2] at h1
      exact absurd h1 (by simp)

/-- An archive member list with exactly one member containing the target
identifier and carrying the audio extension. -/
def archiveAlice : List String := ["info.txt", "trackA-alice.flac", "trackB-bob.flac"]

/-- An archive member list with no member matching the target. -/
def archiveNoAlice : List String := ["trackB-bob.flac"]

/-- Witness for the smart-extract theorem at concrete archives. -/
theorem smart_extract_single_or_full_witness :
    (∃ n ∈ archiveAlice, memberMatches "alice" n = true
       ∧ smartExtract archiveAlice "alice" = [n])
    ∧ smartExtract archiveNoAlice "alice" = archiveNoAlice :=
  ⟨(smart_extract_single_or_full archiveAlice "alice").1 (by decide),
   (smart_extract_single_or_full archiveNoAlice "alice").2 (by decide)⟩

/-! ## LLM cost accounting

From llm_engine.py, calculate_cost: each of the two configured
per-million rates is read from the configuration as a string and parsed
with a guarded float conversion that yields 0.0 on a malformed value; the
cost is promptTokens times the input rate plus completionTokens times the
output rate, each divided by one million, rounded to six decimal places.
A configured rate is modelled as some q when the string parses to the
rational q and none when it is malformed; Python round uses round-half-
to-even, modelled exactly. -/

/-- The guarded float parse: a malformed value becomes 0.0. -/
def safeFloat : Option ℚ → ℚ
  | some q => q
  | none => 0

/-- Floor of a rational, executable through integer floor division. -/
def ratFloor (x : ℚ) : ℤ := Int.fdiv x.num (x.den : ℤ)

/-- Round to the nearest integer, ties to even, as Python round does. -/
def roundHalfEven (x : ℚ) : ℤ :=
  let n := ratFloor x
  let r := x - (n : ℚ)
  if r < 1/2 then n
  else if 1/2 < r then n + 1
  else if n % 2 = 0 then n else n + 1

/-- Python round(x, 6). -/
def round6 (x : ℚ) : ℚ := (roundHalfEven (x * 1000000) : ℚ) / 1000000

/-- The cost computation of llm_engine.calculate_cost. -/
def calculate_cost (p c : ℕ) (inRate outRate : Option ℚ) : ℚ :=
  round6 (((p : ℚ) * safeFloat inRate) / 1000000
    + ((c : ℚ) * safeFloat outRate) / 1000000)

/-- C8: the cost is promptTokens times the input rate plus
completionTokens times the output rate, each per million, rounded to six
decimals; one million tokens on each side at rates 2.0 and 6.0 cost
exactly 8.0; and a malformed rate contributes zero instead of raising. -/
theorem calculate_cost_formula :
    calculate_cost 1000000 1000000 (some 2) (some 6) = 8
    ∧ (∀ (p c : ℕ) (i o : ℚ), calculate_cost p c (some i) (some o)
        = round6 (((p : ℚ) * i) / 1000000 + ((c : ℚ) * o) / 1000000))
    ∧ (∀ (p c : ℕ) (o : Option ℚ), calculate_cost p c none o
        = round6 (((c : ℚ) * safeFloat o) / 1000000))
    ∧ (∀ (p c : ℕ) (i : Option ℚ), calculate_cost p c i none
        = round6 (((p : ℚ) * safeFloat i) / 1000000)) := by
  refine ⟨?_, ?_, ?_, ?_⟩
  · norm_num [calculate_cost, safeFloat, round6, roundHalfEven, ratFloor]
  · intro p c i o
    rfl
  · intro p c o
    simp [calculate_cost, safeFloat]
  · intro p c i
    simp [calculate_cost, safeFloat]

/-! ## LLM provider calls and audit logging

From llm_engine.py, send_google, send_anthropic, send_openai and
send_ollama.  Each call is modelled by the data the code branches on: the
HTTP status of the generation request, whether its body parses as JSON
(response.json() raises otherwise), and the generated text the
provider-specific extraction produces.  A call returns the number of
LLMLog audit rows written by log_llm_request during the call, and some
text on normal return or none when a Python exception propagates.

Faithfulness notes, per provider:
- send_google wraps both the JSON decode and the usage extraction in
  try blocks, so it always reaches log_llm_request, and raises afterwards
  exactly when the status is not 200 or the assembled text is empty.
- send_anthropic first uploads the transcript; a non 200/201 upload
  status raises before the generation call.  The generation response is
  decoded without a guard, so an unparseable body raises before logging;
  after logging, a non-200 status raises.  Empty text does not raise.
- send_openai decodes without a guard, logs, then raises on a non-200
  status.  Empty text does not raise.
- send_ollama decodes without a guard, logs, and never checks the
  status: it only raises on an unparseable body. -/

/-- The observable shape of one HTTP generation response. -/
structure HttpResp where
  status : ℕ
  jsonOk : Bool
  fullText : String
deriving DecidableEq

/-- Outcome of one provider call: audit rows written, and the returned
text, or none when an exception propagates to the caller. -/
structure SendResult where
  logRows : ℕ
  outcome : Option String
deriving DecidableEq

/-- Text assembled from a Gemini response; the parse is guarded, so an
unparseable body yields the empty string rather than an exception. -/
def googleText (r : HttpResp) : String := if r.jsonOk then r.fullText else ""

/-- llm_engine.send_google: always logs, raises on a non-200 status or
empty assembled text. -/
def send_google (r : HttpResp) : SendResult :=
  ⟨1, if r.status ≠ 200 ∨ googleText r = "" then none else some (googleText r)⟩

/-- llm_engine.send_anthropic, given the file-upload status and the
generation response. -/
def send_anthropic (uploadStatus : ℕ) (r : HttpResp) : SendResult :=
  if uploadStatus = 200 ∨ uploadStatus = 201 then
    if r.jsonOk then
      if r.status ≠ 200 then ⟨1, none⟩ else ⟨1, some r.fullText⟩
    else ⟨0, none⟩
  else ⟨0, none⟩

/-- llm_engine.send_openai. -/
def send_openai (r : HttpResp) : SendResult :=
  if r.jsonOk then
    if r.status ≠ 200 then ⟨1, none⟩ else ⟨1, some r.fullText⟩
  else ⟨0, none⟩

/-- llm_engine.send_ollama: no status check at all. -/
def send_ollama (r : HttpResp) : SendResult :=
  if r.jsonOk then ⟨1, some r.fullText⟩ else ⟨0, none⟩

/-- C6 counterexample: a non-success Ollama status returns text without
any error, and an empty generated text on a 200 status returns without
error for Anthropic and OpenAI — the claimed raise-iff condition fails. -/
theorem provider_errors_counterexample :
    (send_ollama ⟨500, true, "recap text"⟩).outcome = some "recap text"
    ∧ (500 : ℕ) ≠ 200
    ∧ (send_anthropic 200 ⟨200, true, ""⟩).outcome = some ""
    ∧ (send_openai ⟨200, true, ""⟩).outcome = some "" := by
  decide

/-- C6 (amended): the error conditions per provider. Google raises
exactly on a non-success status or empty assembled text; Anthropic
raises exactly on a failed upload, an unparseable body, or a non-success
generation status; OpenAI raises exactly on an unparseable body or
non-success status; Ollama raises exactly on an unparseable body. -/
theorem provider_error_conditions (us : ℕ) (r : HttpResp) :
    ((send_google r).outcome = none ↔ (r.status ≠ 200 ∨ googleText r = ""))
    ∧ ((send_anthropic us r).outcome = none
        ↔ (¬(us = 200 ∨ us = 201) ∨ r.jsonOk = false ∨ r.status ≠ 200))
    ∧ ((send_openai r).outcome = none ↔ (r.jsonOk = false ∨ r.status ≠ 200))
    ∧ ((send_ollama r).outcome = none ↔ r.jsonOk = false) := by
  refine ⟨?_, ?_, ?_, ?_⟩
  · unfold send_google
    split <;> simp_all
  · unfold send_anthropic
    split
    · split
      · split <;> simp_all
      · simp_all
    · simp_all
  · unfold send_openai
    split
    · split <;> simp_all
    · simp_all
  · unfold send_ollama
    split <;> simp_all

/-- C7 counterexample: an Anthropic generation call whose response body
is not valid JSON raises with zero audit rows written, violating the
claim that every call, success or failure, records exactly one row. -/
theorem llm_audit_rows_counterexample :
    (send_anthropic 200 ⟨500, false, ""⟩).logRows = 0
    ∧ (send_anthropic 200 ⟨500, false, ""⟩).outcome = none := by
  decide

/-- C7 (amended): Google writes exactly one audit row on every call;
Anthropic, OpenAI and Ollama write exactly one row whenever the
generation response parses as JSON (and, for Anthropic, the upload
succeeded) — including calls that subsequently raise, as the concrete
raising OpenAI call shows — and zero rows when the call fails at or
before JSON decoding. -/
theorem llm_audit_rows (us : ℕ) (r : HttpResp) :
    (send_google r).logRows = 1
    ∧ (send_anthropic us r).logRows
        = (if (us = 200 ∨ us = 201) ∧ r.jsonOk = true then 1 else 0)
    ∧ (send_openai r).logRows = (if r.jsonOk = true then 1 else 0)
    ∧ (send_ollama r).logRows = (if r.jsonOk = true then 1 else 0)
    ∧ (send_openai ⟨500, true, "x"⟩).logRows = 1
    ∧ (send_openai ⟨500, true, "x"⟩).outcome = none := by
  refine ⟨rfl, ?_, ?_, ?_, by decide, by decide⟩
  · unfold send_anthropic
    split
    · split
      · split <;> simp_all
      · simp_all
    · simp_all
  · unfold send_openai
    split
    · split <;> simp_all
    · simp_all
  · unfold send_ollama
    split <;> simp_all

/-! ## Worker state machine

From worker.py, JobManager.  The database rows the worker touches are
modelled as record lists: Job rows (id, session id, step tag, status) and
Session rows (id, status); job logs, timestamps and transcript rows carry
no status information and are omitted.  The jobs list is kept in creation
order, so the oldest pending job (order_by created_at ascending) is the
first pending entry.

JobManager.run claims the oldest pending job by setting its status to
processing and committing, then calls process_job.  process_job
dispatches on the step tag:

- transcribe and transcribe:target run the transcription stage.  The
  stage can raise (model load failure, no flac files); that is abstracted
  by the stageOk argument.  On success with no target user, a summarize
  job is appended in pending status and the session becomes Analyzing —
  the source never sets the transcribe job itself to completed in this
  branch.  With a target user, the session becomes Ready and the job
  completed.  Python treats an empty target string as falsy, so a bare
  "transcribe:" step also takes the full branch.
- summarize and summarize_only call llm_engine.run_summary with the
  keyword argument named by summarizeCallKeyword.  The run_summary
  definition accepts only the parameters in runSummaryParams, so Python
  binding raises a TypeError at the call, which the handler turns into
  job error, session Error.  Were the keyword accepted, success would
  set the session Completed and the job completed (the source sets
  Completed for both step variants).
- run_scripts runs the campaign scripts (log-only effects) and completes
  the job.
- post_discord first imports send_to_discord from llm_engine; the module
  defines no such name (llmEngineNames lists its top-level definitions),
  so the import raises and the handler records job error, session Error.
- any other step matches no branch and the function returns with no
  mutation at all.

Any exception in a stage is caught by the top-level handler: job status
error, session status Error.  On startup, reset_stuck_jobs flips every
processing job back to pending. -/

/-- One Job row: id, owning session, step tag, status. -/
structure Job where
  id : ℕ
  sessionId : ℕ
  step : String
  status : String
deriving DecidableEq

/-- One Session row: id and lifecycle status. -/
structure SessionRec where
  id : ℕ
  status : String
deriving DecidableEq

/-- The database state the worker manipulates, plus a fresh-id counter
for rows the worker itself inserts. -/
structure WorkerState where
  jobs : List Job
  sessions : List SessionRec
  nextJobId : ℕ
deriving DecidableEq

/-- Set the status of the job row with the given id. -/
def setJobStatus (js : List Job) (jid : ℕ) (s : String) : List Job :=
  js.map fun j => if j.id = jid then { j with status := s } else j

/-- Set the status of the session row with the given id. -/
def setSessionStatus (ss : List SessionRec) (sid : ℕ) (s : String) : List SessionRec :=
  ss.map fun r => if r.id = sid then { r with status := s } else r

/-- The transcription dispatch test of process_job: step equals
"transcribe" or starts with "transcribe:". -/
def isTranscribeStep (s : String) : Bool :=
  s == "transcribe" || strStartsWith s "transcribe:"

/-- The target user encoded in a "transcribe:" step: everything after the
first eleven characters, as job.step.split produces. -/
def transcribeTarget (s : String) : Option String :=
  if strStartsWith s "transcribe:" then some (strDropChars s 11) else none

/-- The parameter list of llm_engine.run_summary as defined in the
source: def run_summary(job, config). -/
def runSummaryParams : List String := ["job", "config"]

/-- The keyword argument used at the run_summary call site inside
process_job. -/
def summarizeCallKeyword : String := "post_to_discord_enabled"

/-- The top-level names defined by llm_engine.py, from which the
post_discord branch tries to import send_to_discord. -/
def llmEngineNames : List String :=
  ["calculate_cost", "format_duration", "log_llm_request", "send_google",
   "send_anthropic", "send_openai", "send_ollama", "send_discord",
   "run_summary"]

/-- The except handler of process_job: job error, session Error. -/
def errorOut (st : WorkerState) (j : Job) : WorkerState :=
  { st with jobs := setJobStatus st.jobs j.id "error",
            sessions := setSessionStatus st.sessions j.sessionId "Error" }

/-- JobManager.process_job as a state transformer.  stageOk abstracts
whether the dispatched stage body ran without raising. -/
def processJob (st : WorkerState) (j : Job) (stageOk : Bool) : WorkerState :=
  if isTranscribeStep j.step then
    if stageOk then
      if (transcribeTarget j.step).getD "" == "" then
        { st with
            jobs := st.jobs ++ [⟨st.nextJobId, j.sessionId, "summarize", "pending"⟩],
            nextJobId := st.nextJobId + 1,
            sessions := setSessionStatus st.sessions j.sessionId "Analyzing" }
      else
        { st with jobs := setJobStatus st.jobs j.id "completed",
                  sessions := setSessionStatus st.sessions j.sessionId "Ready" }
    else errorOut st j
  else if j.step == "summarize" || j.step == "summarize_only" then
    if runSummaryParams.contains summarizeCallKeyword then
      if stageOk then
        { st with jobs := setJobStatus st.jobs j.id "completed",
                  sessions := setSessionStatus st.sessions j.sessionId "Completed" }
      else errorOut st j
    else errorOut st j
  else if j.step == "run_scripts" then
    if stageOk then { st with jobs := setJobStatus st.jobs j.id "completed" }
    else errorOut st j
  else if j.step == "post_discord" then
    if llmEngineNames.contains "send_to_discord" then
      if stageOk then { st with jobs := setJobStatus st.jobs j.id "completed" }
      else errorOut st j
    else errorOut st j
  else st

/-- The claim step of JobManager.run: find the oldest pending job, set it
to processing and commit; return the claimed job alongside the new
state. -/
def claimJob (st : WorkerState) : Option (WorkerState × Job) :=
  match st.jobs.find? (fun j => j.status == "pending") with
  | some j => some ({ st with jobs := setJobStatus st.jobs j.id "processing" },
                    { j with status := "processing" })
  | none => none

/-- One full iteration of the worker loop when a pending job exists:
claim it, then process it. -/
def workerStep (st : WorkerState) (stageOk : Bool) : WorkerState :=
  match claimJob st with
  | some (stClaimed, j) => processJob stClaimed j stageOk
  | none => st

/-- JobManager.reset_stuck_jobs: every processing job back to pending. -/
def resetStuckJobs (st : WorkerState) : WorkerState :=
  { st with jobs := st.jobs.map fun j =>
      if j.status == "processing" then { j with status := "pending" } else j }

/-- Number of job rows currently in processing status. -/
def countProcessing (js : List Job) : ℕ :=
  (js.filter fun j => j.status == "processing").length

/-- Number of summarize job rows bound to the given session. -/
def countSummarize (js : List Job) (sid : ℕ) : ℕ :=
  (js.filter fun j => j.sessionId == sid && j.step == "summarize").length

/-- The step tags process_job has a branch for. -/
def recognizedStep (s : String) : Bool :=
  isTranscribeStep s || s == "summarize" || s == "summarize_only"
    || s == "run_scripts" || s == "post_discord"

lemma filter_pred_setJobStatus (a : Job) (jid : ℕ) (s : String) (sid : ℕ) :
    ((if a.id = jid then { a with status := s } else a).sessionId == sid
      && (if a.id = jid then { a with status := s } else a).step == "summarize")
      = (a.sessionId == sid && a.step == "summarize") := by
  by_cases h : a.id = jid <;> simp [h]

lemma countSummarize_setJobStatus (js : List Job) (jid : ℕ) (s : String)
    (sid : ℕ) : countSummarize (setJobStatus js jid s) sid = countSummarize js sid := by
  induction js with
  | nil => rfl
  | cons a t ih =>
    simp only [countSummarize, setJobStatus, List.map_cons, List.filter_cons] at ih ⊢
    rw [filter_pred_setJobStatus]
    by_cases hm : (a.sessionId == sid && a.step == "summarize") = true
    · rw [if_pos hm, if_pos hm]
      simp only [List.length_cons]
      rw [ih]
    · rw [if_neg hm, if_neg hm]
      exact ih

lemma countSummarize_append (js ks : List Job) (sid : ℕ) :
    countSummarize (js ++ ks) sid = countSummarize js sid + countSummarize ks sid := by
  simp [countSummarize, List.filter_append]

lemma setSessionStatus_mem (ss : List SessionRec) (sid : ℕ) (s : String) :
    ∀ r ∈ setSessionStatus ss sid s, r.id = sid → r.status = s := by
  intro r hr hid
  rcases List.mem_map.mp hr with ⟨x, hx, hfx⟩
  by_cases h : x.id = sid
  · rw [if_pos h] at hfx
    rw [← hfx]
  · rw [if_neg h] at hfx
    rw [← hfx] at hid
    exact absurd hid h

/-- The initial database of the C1 scenario: one session being processed
and its single pending full-transcription job. -/
def fullTranscribeStart : WorkerState :=
  { jobs := [⟨0, 1, "transcribe", "pending"⟩],
    sessions := [⟨1, "Processing"⟩],
    nextJobId := 1 }

/-- C1 fails on the code: after the worker claims and successfully
executes the full transcription job, that job is still in processing
status (the source never completes it) while the chained summarize job
sits pending; the next loop iteration claims the summarize job, at which
instant two Job rows hold processing simultaneously. -/
theorem two_jobs_processing_after_full_transcribe :
    ((workerStep fullTranscribeStart true).jobs.map fun j => (j.step, j.status))
      = [("transcribe", "processing"), ("summarize", "pending")]
    ∧ ((claimJob (workerStep fullTranscribeStart true)).map
        fun p => countProcessing p.1.jobs) = some 2 := by
  decide

/-- A database where the session already has a summarize job while its
full transcription job is being processed. -/
def duplicateStart : WorkerState :=
  { jobs := [⟨0, 1, "transcribe", "processing"⟩, ⟨1, 1, "summarize", "pending"⟩],
    sessions := [⟨1, "Processing"⟩],
    nextJobId := 2 }

/-- C4 counterexample: a successful full transcription appends a new
summarize job even though one already exists for the session — there is
no duplicate guard, so the session ends up with two summarize jobs. -/
theorem duplicate_summarize_job_created :
    countSummarize duplicateStart.jobs 1 = 1
    ∧ countSummarize (processJob duplicateStart ⟨0, 1, "transcribe", "processing"⟩ true).jobs 1 = 2 := by
  decide

/-- C4 (amended): a successful full transcription always creates exactly
one additional summarize job for the session, unconditionally — also when
one already exists; a successful targeted transcription with a non-empty
speaker creates none and sets the session status to Ready. -/
theorem full_transcribe_always_chains_summarize
    (st : WorkerState) (j : Job) (u : String) :
    (j.step = "transcribe" →
       countSummarize (processJob st j true).jobs j.sessionId
         = countSummarize st.jobs j.sessionId + 1)
    ∧ (transcribeTarget j.step = some u → u ≠ "" →
       countSummarize (processJob st j true).jobs j.sessionId
           = countSummarize st.jobs j.sessionId
         ∧ ∀ r ∈ (processJob st j true).sessions, r.id = j.sessionId →
             r.status = "Ready") := by
  constructor
  · intro h
    have h1 : isTranscribeStep j.step = true := by rw [h]; decide
    have h2 : transcribeTarget j.step = none := by rw [h]; decide
    simp only [processJob, h1, if_true, h2, Option.getD_none]
    simp only [show ("" == "") = true from rfl, if_true]
    rw [countSummarize_append]
    simp [countSummarize]
  · intro h hu
    have h1 : strStartsWith j.step "transcribe:" = true := by
      by_contra hns
      rw [Bool.not_eq_true] at hns
      unfold transcribeTarget at h
      rw [if_neg (by simp [hns])] at h
      exact Option.noConfusion h
    have h2 : isTranscribeStep j.step = true := by
      simp [isTranscribeStep, h1]
    have h3 : transcribeTarget j.step = some u := h
    have h4 : ((transcribeTarget j.step).getD "" == "") = false := by
      rw [h3]
      simp only [Option.getD_some]
      exact beq_eq_false_iff_ne.mpr hu
    simp only [processJob, h2, if_true, h4, if_false, Bool.false_eq_true]
    exact ⟨countSummarize_setJobStatus st.jobs j.id "completed" j.sessionId,
           setSessionStatus_mem st.sessions j.sessionId "Ready"⟩

/-- Witness for the amended C4 theorem: a concrete full transcription and
a concrete targeted transcription. -/
theorem full_transcribe_always_chains_summarize_witness :
    countSummarize
        (processJob duplicateStart ⟨0, 1, "transcribe", "processing"⟩ true).jobs 1
      = countSummarize duplicateStart.jobs 1 + 1
    ∧ (countSummarize
          (processJob fullTranscribeStart ⟨0, 1, "transcribe:alice", "processing"⟩ true).jobs 1
        = countSummarize fullTranscribeStart.jobs 1
       ∧ ∀ r ∈ (processJob fullTranscribeStart ⟨0, 1, "transcribe:alice", "processing"⟩ true).sessions,
           r.id = 1 → r.status = "Ready") :=
  ⟨(full_transcribe_always_chains_summarize duplicateStart
      ⟨0, 1, "transcribe", "processing"⟩ "x").1 rfl,
   (full_transcribe_always_chains_summarize fullTranscribeStart
      ⟨0, 1, "transcribe:alice", "processing"⟩ "alice").2 (by decide) (by decide)⟩

/-- The database of the C5 scenario: a claimed summarize job. -/
def summarizeStart : WorkerState :=
  { jobs := [⟨0, 1, "summarize", "processing"⟩],
    sessions := [⟨1, "Analyzing"⟩],
    nextJobId := 1 }

/-- The database of the C5 scenario for the summarize_only variant. -/
def summarizeOnlyStart : WorkerState :=
  { jobs := [⟨0, 1, "summarize_only", "processing"⟩],
    sessions := [⟨1, "Analyzing"⟩],
    nextJobId := 1 }

/-- C5 fails on the code: process_job calls run_summary with a keyword
argument the definition does not accept, so every summarize and
summarize_only job raises a TypeError before the LLM stage runs and is
recorded as job error, session Error — never Completed. -/
theorem summarize_jobs_error_on_keyword_mismatch :
    runSummaryParams.contains summarizeCallKeyword = false
    ∧ (processJob summarizeStart ⟨0, 1, "summarize", "processing"⟩ true).jobs.map
        Job.status = ["error"]
    ∧ (processJob summarizeStart ⟨0, 1, "summarize", "processing"⟩ true).sessions.map
        SessionRec.status = ["Error"]
    ∧ (processJob summarizeOnlyStart ⟨0, 1, "summarize_only", "processing"⟩ true).jobs.map
        Job.status = ["error"]
    ∧ (processJob summarizeOnlyStart ⟨0, 1, "summarize_only", "processing"⟩ true).sessions.map
        SessionRec.status = ["Error"] := by
  decide

/-- C10: a job whose step tag matches no dispatch branch leaves
process_job with the whole database unchanged — its status stays
processing, no error is recorded — and only the startup reset flips such
a job back to pending. -/
theorem unknown_step_leaves_state_unchanged :
    (∀ (st : WorkerState) (j : Job) (ok : Bool),
        recognizedStep j.step = false → processJob st j ok = st)
    ∧ (∀ (st : WorkerState) (j : Job), j ∈ st.jobs → j.status = "processing" →
        { j with status := "pending" } ∈ (resetStuckJobs st).jobs) := by
  constructor
  · intro st j ok h
    simp only [recognizedStep, Bool.or_eq_false_iff] at h
    obtain ⟨⟨⟨⟨h1, h2⟩, h3⟩, h4⟩, h5⟩ := h
    simp [processJob, h1, h2, h3, h4, h5]
  · intro st j hj hstatus
    have he : (fun j : Job =>
        if j.status == "processing" then { j with status := "pending" } else j) j
        = { j with status := "pending" } := by
      simp [hstatus]
    rw [resetStuckJobs, ← he]
    exact List.mem_map_of_mem _ hj

/-- A database holding a job with an unrecognized step tag in processing
status. -/
def unknownStepState : WorkerState :=
  { jobs := [⟨0, 1, "frobnicate", "processing"⟩],
    sessions := [⟨1, "Processing"⟩],
    nextJobId := 1 }

/-- Witness for the C10 theorem at a concrete unrecognized step. -/
theorem unknown_step_leaves_state_unchanged_witness :
    processJob unknownStepState ⟨0, 1, "frobnicate", "processing"⟩ true
        = unknownStepState
    ∧ ({ id := 0, sessionId := 1, step := "frobnicate", status := "pending" } : Job)
        ∈ (resetStuckJobs unknownStepState).jobs :=
  ⟨unknown_step_leaves_state_unchanged.1 unknownStepState
      ⟨0, 1, "frobnicate", "processing"⟩ true (by decide),
   unknown_step_leaves_state_unchanged.2 unknownStepState
      ⟨0, 1, "frobnicate", "processing"⟩ (by decide) rfl⟩

end Scribble
